import Mathlib

/-!
Verification of the actor substrate of the `agents` repository.

The definitions below are a shallow embedding of the Python modules
`src/actors/message.py`, `src/actors/base.py`, `src/actors/system.py`,
`src/actors/actors/command_actor.py` and
`src/actors/actors/web_search_actor.py`.  Python dicts become association
lists (first match wins, assignment updates in place, insertion appends),
Python sets of identities become duplicate-free lists, asyncio queues become
FIFO lists, and the dynamically typed `message_type` attribute becomes a sum
of the `MessageType` enumeration and a raw string.  External collaborators
(the command executor, the safety agent, the web-search client) are opaque
function parameters, as the specification requires.
-/

set_option maxHeartbeats 1000000

namespace Agents

/-- The `MessageType` enumeration from `message.py`. -/
inductive MessageType where
  | DEFAULT
  | REQUEST
  | RESPONSE
  | ERROR
  | SPAWN_SUBAGENT
  | EXECUTE_COMMAND
  | WEB_SEARCH
  | DELEGATE_TASK
deriving DecidableEq, Repr

/-- The `.value` string of each `MessageType` member. -/
def MessageType.value : MessageType → String
  | .DEFAULT => "default"
  | .REQUEST => "request"
  | .RESPONSE => "response"
  | .ERROR => "error"
  | .SPAWN_SUBAGENT => "spawn_subagent"
  | .EXECUTE_COMMAND => "execute_command"
  | .WEB_SEARCH => "web_search"
  | .DELEGATE_TASK => "delegate_task"

/-- Python's `message_type` attribute is dynamically typed: the dataclass
declares it as `MessageType`, but `Actor._handle_error` assigns the plain
string `"child_error"`.  We embed the attribute as the sum of both. -/
inductive MType where
  | enum (t : MessageType)
  | raw (s : String)
deriving DecidableEq, Repr

/-- Result data carried inside a `CommandResult.data` dict. -/
inductive PData where
  | execData (stdout stderr : String) (exit_code : Int) (timeout : Bool)
  | searchData (results : List String) (query : String) (max_results : Nat)
deriving DecidableEq, Repr

/-- Envelope payloads that occur in the embedded code paths.  `str` stands
for any other opaque payload value. -/
inductive Payload where
  | executeCommand (command : String) (timeout : Nat)
  | webSearchQuery (query : String) (max_results : Nat)
  | commandResult (success : Bool) (data : Option PData) (error : Option String)
  | childError (actor_id : String) (error : String)
  | str (s : String)
deriving DecidableEq, Repr

/-- The `ActorMessage` dataclass from `message.py`.  Field defaults mirror
the dataclass defaults; `timestamp` (a `datetime` in the source) is an
abstract tick count. -/
structure ActorMessage where
  id : String
  recipient : String
  payload : Payload
  message_type : MType := .enum .DEFAULT
  sender : Option String := none
  reply_to : Option String := none
  correlation_id : Option String := none
  timestamp : Nat := 0
deriving DecidableEq, Repr

/-- Arguments supplied to the `ActorMessage` constructor call.  A field left
`none` models the caller not passing that keyword argument. -/
structure MsgArgs where
  id : Option String := none
  recipient : Option String := none
  payload : Option Payload := none
  message_type : Option MType := none
  sender : Option (Option String) := none
  reply_to : Option (Option String) := none
  correlation_id : Option (Option String) := none
  timestamp : Option Nat := none
deriving DecidableEq, Repr

/-- Python dataclass construction: `id`, `recipient` and `payload` have no
defaults, so omitting any of them raises `TypeError`; every other field
falls back to its dataclass default (`timestamp` to the current time). -/
def mkActorMessage (args : MsgArgs) (now : Nat) : Except String ActorMessage :=
  match args.id, args.recipient, args.payload with
  | some i, some r, some p =>
      .ok { id := i, recipient := r, payload := p,
            message_type := args.message_type.getD (.enum .DEFAULT),
            sender := args.sender.getD none,
            reply_to := args.reply_to.getD none,
            correlation_id := args.correlation_id.getD none,
            timestamp := args.timestamp.getD now }
  | none, _, _ => .error "TypeError: missing required argument: id"
  | _, none, _ => .error "TypeError: missing required argument: recipient"
  | _, _, none => .error "TypeError: missing required argument: payload"

/-- Heterogeneous values of the dict built by `ActorMessage.to_dict`. -/
inductive DVal where
  | s (v : String)
  | os (v : Option String)
  | p (v : Payload)
  | n (v : Nat)
deriving DecidableEq, Repr

/-- `message_type.value`: succeeds on an enumeration member and raises
`AttributeError` when the attribute holds a plain string. -/
def MType.valueAttr : MType → Except String String
  | .enum t => .ok t.value
  | .raw _ => .error "AttributeError: str object has no attribute value"

/-- `ActorMessage.to_dict` from `message.py`: builds the dict, evaluating
`self.message_type.value` for the `"message_type"` entry. -/
def to_dict (m : ActorMessage) : Except String (List (String × DVal)) :=
  match m.message_type.valueAttr with
  | .error e => .error e
  | .ok v =>
      .ok [("id", .s m.id), ("sender", .os m.sender), ("recipient", .s m.recipient),
           ("payload", .p m.payload), ("reply_to", .os m.reply_to),
           ("correlation_id", .os m.correlation_id), ("timestamp", .n m.timestamp),
           ("message_type", .s v)]

/-- The `ActorState` enumeration from `base.py`. -/
inductive ActorState where
  | IDLE
  | RUNNING
  | STOPPED
  | ERROR
deriving DecidableEq, Repr

/-- Per-actor state: the fields of an `Actor` instance that the runtime
reads and writes (`mailbox`, `parent_id`, `children`, `state`, `_running`).
The mailbox is the actor's FIFO queue, head = next message to dequeue. -/
structure ActorData where
  mailbox : List ActorMessage := []
  parent_id : Option String := none
  children : List String := []
  state : ActorState := .IDLE
  running : Bool := false
deriving DecidableEq, Repr

/-- Log records emitted through the structured logger. -/
inductive LogEntry where
  | warn (event : String) (arg : String)
  | info (event : String) (arg : String)
  | err (event : String) (arg : String)
deriving DecidableEq, Repr

/-- The registry dict `ActorSystem.actors`: identity to actor instance. -/
abbrev Reg := List (String × ActorData)

/-- Python `dict.get`: first binding for the key. -/
def lookupA : Reg → String → Option ActorData
  | [], _ => none
  | (k, v) :: rest, key => if k = key then some v else lookupA rest key

/-- Python dict assignment `d[k] = v`: update the existing binding in place,
else append a new one. -/
def insertA : Reg → String → ActorData → Reg
  | [], k, v => [(k, v)]
  | (k', v') :: rest, k, v =>
      if k' = k then (k, v) :: rest else (k', v') :: insertA rest k v

/-- Python `del d[k]`: drop the binding for the key. -/
def eraseA : Reg → String → Reg
  | [], _ => []
  | (k', v') :: rest, k => if k' = k then rest else (k', v') :: eraseA rest k

/-- Mutating one actor instance in place (attribute assignment on the object
held in the dict). -/
def updateA : Reg → String → (ActorData → ActorData) → Reg
  | [], _, _ => []
  | (k, v) :: rest, key, f =>
      if k = key then (k, f v) :: rest else (k, v) :: updateA rest key f

/-- Python `set.add` on the `children` set. -/
def addChild (cs : List String) (x : String) : List String :=
  if x ∈ cs then cs else cs ++ [x]

/-- Python `set.discard` on the `children` set. -/
def removeChild (cs : List String) (x : String) : List String :=
  cs.filter (fun c => decide (c ≠ x))

/-- The whole `ActorSystem` state: the registry plus the observability
channel (the structured log). -/
structure SystemState where
  actors : Reg := []
  log : List LogEntry := []
deriving DecidableEq, Repr

/-- `ActorSystem.spawn` (`system.py`): assigns the actor into the registry
dict (overwriting any existing binding for the same identity), records the
parent on the actor, adds the identity to the parent's child set when the
parent is registered, logs, and returns the identity.  The dispatch task is
started asynchronously; its state transitions are modelled by `actorStart`
and `runStep`. -/
def spawn (st : SystemState) (actorId : String) (a : ActorData)
    (parentId : Option String) : SystemState × String :=
  let r1 := insertA st.actors actorId { a with parent_id := parentId }
  let r2 := match parentId with
    | some pid => updateA r1 pid (fun p => { p with children := addChild p.children actorId })
    | none => r1
  ({ actors := r2, log := st.log ++ [.info "actor_spawned" actorId] }, actorId)

/-- `ActorSystem.send` (`system.py`): resolve the recipient in the registry;
if found, enqueue the envelope at the tail of that actor's mailbox; if
absent, drop the envelope and log `actor_not_found`. -/
def send (st : SystemState) (m : ActorMessage) : SystemState :=
  match lookupA st.actors m.recipient with
  | some _ =>
      { st with actors := (updateA st.actors m.recipient
          (fun a => { a with mailbox := a.mailbox ++ [m] })) }
  | none => { st with log := st.log ++ [.warn "actor_not_found" m.recipient] }

/-- A trace of `send` calls, in global call order. -/
def sendAll (st : SystemState) (msgs : List ActorMessage) : SystemState :=
  msgs.foldl send st

/-- The per-recipient copy built by `ActorSystem.broadcast`: every field of
the original except `recipient`. -/
def copyTo (m : ActorMessage) (rid : String) : ActorMessage :=
  { m with recipient := rid }

/-- `ActorSystem.broadcast` (`system.py`): send one structurally identical
copy per identity in the sequence, via `send` semantics. -/
def broadcast (st : SystemState) (m : ActorMessage) (ids : List String) : SystemState :=
  ids.foldl (fun s i => send s (copyTo m i)) st

/-- `ActorSystem.stop` / `Actor.stop`, with explicit recursion fuel.
`stop actor_id`: look the actor up (unknown identity: no-op); set its
`_running` flag to `False`; recursively stop each recorded child (snapshot
of the child set); discard the identity from its parent's child set; delete
the registry binding; log.  The fuel only bounds the recursion depth; it is
never exhausted on well-formed supervision forests. -/
def stopOne : Nat → SystemState → String → SystemState
  | 0, st, _ => st
  | fuel + 1, st, actorId =>
      match lookupA st.actors actorId with
      | none => st
      | some a =>
          let st1 : SystemState :=
            { st with actors := updateA st.actors actorId (fun x => { x with running := false }) }
          let st2 := a.children.foldl (fun s c => stopOne fuel s c) st1
          let st3 : SystemState :=
            match a.parent_id with
            | some pid =>
                { st2 with actors := (updateA st2.actors pid
                    (fun p => { p with children := removeChild p.children actorId })) }
            | none => st2
          { st3 with actors := eraseA st3.actors actorId,
                     log := st3.log ++ [.info "actor_stopped" actorId] }

/-- `ActorSystem.stop` with enough fuel for any supervision forest held in
the registry (the depth of a forest never exceeds the number of actors). -/
def stop (st : SystemState) (actorId : String) : SystemState :=
  stopOne (st.actors.length + 1) st actorId

/-- `ActorSystem.get_actor`. -/
def get_actor (st : SystemState) (actorId : String) : Option ActorData :=
  lookupA st.actors actorId

/-- `ActorSystem.stop_all`: stop every actor, iterating a snapshot of the
registered identities. -/
def stop_all (st : SystemState) : SystemState :=
  (st.actors.map Prod.fst).foldl stop st

/-- The outcome of `Actor.ask`. -/
inductive AskOutcome where
  | reply (m : ActorMessage)
  | timeout
  | noSystem
deriving DecidableEq, Repr

/-- `Actor.ask` (`base.py`): create a fresh future and a local
`reply_handler` closure, send the envelope via the system, then
`asyncio.wait_for` the future.  The closure is never registered with the
system or the mailbox — no code path ever calls it — so the future is never
completed and the wait can only end with `asyncio.TimeoutError`.  The
`replies` argument is the list of reply envelopes that arrive addressed to
the caller before the timeout elapses; the source ignores them, which this
embedding makes explicit. -/
def ask (hasSystem : Bool) (st : SystemState) (m : ActorMessage)
    (replies : List ActorMessage) : SystemState × AskOutcome :=
  if hasSystem then (send st m, .timeout) else (st, .noSystem)

/-- The child-failure notification built by `Actor._handle_error`
(`base.py`): `message_type` is the plain string `"child_error"`, the payload
carries the failing actor's identity and the error description, and the
remaining fields keep their dataclass defaults. -/
def childErrorMessage (errId selfId pid e : String) (now : Nat) : ActorMessage :=
  { id := "error_" ++ errId, recipient := pid, payload := .childError selfId e,
    message_type := .raw "child_error", sender := some selfId, timestamp := now }

/-- One iteration of the dispatch loop `Actor._run` (`base.py`) for the
actor `selfId`, parameterised by the abstract handler `recv` (the
`receive` method of the concrete role).  With the mailbox empty the
`asyncio.wait_for` poll times out and the loop merely continues; otherwise
the head envelope is dequeued and handled; if the handler raises,
`_handle_error` logs, sets the state to `ERROR`, and — when a parent is
recorded — sends the parent the child-failure envelope.  The loop itself
keeps running either way.  Returns the new state and the envelope handled
in this iteration, if any. -/
def runStep (recv : ActorMessage → Except String Unit) (errId : String) (now : Nat)
    (st : SystemState) (selfId : String) : SystemState × Option ActorMessage :=
  match lookupA st.actors selfId with
  | none => (st, none)
  | some a =>
      if a.running then
        match a.mailbox with
        | [] => (st, none)
        | m :: rest =>
            let st1 : SystemState :=
              { st with actors := updateA st.actors selfId (fun x => { x with mailbox := rest }) }
            match recv m with
            | .ok _ => (st1, some m)
            | .error e =>
                let st2 : SystemState :=
                  { st1 with actors := updateA st1.actors selfId (fun x => { x with state := .ERROR }),
                             log := st1.log ++ [.err "actor_error" selfId] }
                let st3 := match a.parent_id with
                  | some pid => send st2 (childErrorMessage errId selfId pid e now)
                  | none => st2
                (st3, some m)
      else (st, none)

/-- The start of `Actor._run`: `_running = True`, state `RUNNING`. -/
def actorStart (st : SystemState) (selfId : String) : SystemState :=
  { st with actors := (updateA st.actors selfId
      (fun a => { a with running := true, state := .RUNNING })) }

/-- Iterate `runStep` up to `n` times, collecting the envelopes handled, and
stopping early when an iteration handles nothing. -/
def drainN (recv : ActorMessage → Except String Unit) (errId : String) (now : Nat) :
    Nat → SystemState → String → SystemState × List ActorMessage
  | 0, st, _ => (st, [])
  | n + 1, st, selfId =>
      match runStep recv errId now st selfId with
      | (st1, none) => (st1, [])
      | (st1, some m) =>
          let (st2, ms) := drainN recv errId now n st1 selfId
          (st2, m :: ms)

/-- Execution-result record produced by the command executor collaborator. -/
structure ExecData where
  stdout : String
  stderr : String
  exit_code : Int
  timeout : Bool := false
deriving DecidableEq, Repr

/-- `CommandActor._handle_execute_command` (`command_actor.py`): validate
the payload shape (log and return on mismatch), consult the safety agent,
run the command through the executor, wrap the outcome in a
`CommandResult`, and — when `reply_to` is set — build the reply envelope
(`message_type=RESPONSE`, `correlation_id` copied from the incoming
envelope's own `correlation_id` attribute) and send it.  Returns the reply
envelope handed to `tell`, if any. -/
def handleExecuteCommand (safety : String → Bool × String)
    (execu : String → Except String ExecData)
    (selfId replyId : String) (now : Nat) (msg : ActorMessage) : Option ActorMessage :=
  match msg.payload with
  | .executeCommand cmd _tmo =>
      let result : Payload :=
        if (safety cmd).1 = false then
          .commandResult false none
            (some ("Command rejected by safety agent. Reason: " ++ (safety cmd).2))
        else
          match execu cmd with
          | .ok d => .commandResult true (some (.execData d.stdout d.stderr d.exit_code d.timeout)) none
          | .error e => .commandResult false none (some ("Command execution failed: " ++ e))
      match msg.reply_to with
      | some rt =>
          some { id := "reply_" ++ replyId, sender := some selfId, recipient := rt,
                 payload := result, message_type := .enum .RESPONSE,
                 correlation_id := msg.correlation_id, timestamp := now }
      | none => none
  | _ => none

/-- `WebSearchActor._handle_web_search` (`web_search_actor.py`): same shape
as the command handler, delegating to the search executor. -/
def handleWebSearch (search : String → Except String (List String))
    (selfId replyId : String) (now : Nat) (msg : ActorMessage) : Option ActorMessage :=
  match msg.payload with
  | .webSearchQuery q maxr =>
      let result : Payload :=
        match search q with
        | .ok rs => .commandResult true (some (.searchData rs q maxr)) none
        | .error e => .commandResult false none (some ("Web search failed: " ++ e))
      match msg.reply_to with
      | some rt =>
          some { id := "reply_" ++ replyId, sender := some selfId, recipient := rt,
                 payload := result, message_type := .enum .RESPONSE,
                 correlation_id := msg.correlation_id, timestamp := now }
      | none => none
  | _ => none

/-! ### Association-list lemmas -/

theorem lookupA_updateA (r : Reg) (p : String) (f : ActorData → ActorData) (k : String) :
    lookupA (updateA r p f) k = if k = p then (lookupA r p).map f else lookupA r k := by
  induction r with
  | nil => simp [updateA, lookupA]
  | cons hd tl ih =>
      obtain ⟨k', v'⟩ := hd
      by_cases hkp : k' = p
      · subst hkp
        by_cases hk : k' = k
        · subst hk
          simp [updateA, lookupA]
        · simp [updateA, lookupA, hk, Ne.symm hk]
      · by_cases hk : k' = k
        · subst hk
          simp [updateA, lookupA, hkp, fun (h : k' = p) => hkp h]
        · simp [updateA, lookupA, hkp, hk, ih]

theorem map_fst_updateA (r : Reg) (p : String) (f : ActorData → ActorData) :
    (updateA r p f).map Prod.fst = r.map Prod.fst := by
  induction r with
  | nil => simp [updateA]
  | cons hd tl ih =>
      obtain ⟨k', v'⟩ := hd
      by_cases hk : k' = p
      · simp [updateA, hk]
      · simp [updateA, hk, ih]

theorem lookupA_insertA (r : Reg) (k : String) (v : ActorData) (q : String) :
    lookupA (insertA r k v) q = if q = k then some v else lookupA r q := by
  induction r with
  | nil =>
      simp only [insertA, lookupA]
      by_cases hq : q = k
      · rw [if_pos hq.symm, if_pos hq]
      · rw [if_neg (Ne.symm hq), if_neg hq]
  | cons hd tl ih =>
      obtain ⟨k', v'⟩ := hd
      by_cases hkk : k' = k
      · subst hkk
        simp only [insertA, if_pos rfl, lookupA]
        by_cases hq : k' = q
        · rw [if_pos hq, if_pos hq.symm]
        · rw [if_neg hq, if_neg (Ne.symm hq)]
          simp only [lookupA, if_neg hq]
      · simp only [insertA, if_neg hkk, lookupA]
        by_cases hq : k' = q
        · rw [if_pos hq, if_neg (fun (h : q = k) => hkk (hq.trans h))]
          simp only [lookupA, if_pos hq]
        · rw [if_neg hq, ih]
          by_cases hqk : q = k
          · rw [if_pos hqk, if_pos hqk]
          · rw [if_neg hqk, if_neg hqk]
            simp only [lookupA, if_neg hq]

theorem lookupA_eraseA_ne (r : Reg) (x k : String) (h : k ≠ x) :
    lookupA (eraseA r x) k = lookupA r k := by
  induction r with
  | nil => simp [eraseA]
  | cons hd tl ih =>
      obtain ⟨k', v'⟩ := hd
      by_cases hx : k' = x
      · subst hx
        have : ¬ k' = k := fun hh => h (hh.symm.trans rfl)
        simp [eraseA, lookupA, this]
      · by_cases hk : k' = k
        · subst hk
          simp [eraseA, lookupA, hx]
        · simp [eraseA, lookupA, hx, hk, ih]

theorem lookupA_eraseA_self (r : Reg) (x : String)
    (hnd : (r.map Prod.fst).Nodup) : lookupA (eraseA r x) x = none := by
  induction r with
  | nil => simp [eraseA, lookupA]
  | cons hd tl ih =>
      obtain ⟨k', v'⟩ := hd
      simp only [List.map_cons, List.nodup_cons] at hnd
      by_cases hx : k' = x
      · subst hx
        -- the erased binding was the only one for `x`
        simp only [eraseA, if_pos rfl]
        clear ih
        induction tl with
        | nil => simp [lookupA]
        | cons hd2 tl2 ih2 =>
            obtain ⟨k2, v2⟩ := hd2
            simp only [List.map_cons, List.mem_cons, List.nodup_cons] at hnd
            have hk2 : ¬ k2 = k' := fun h => hnd.1 (Or.inl h.symm)
            simp only [lookupA, if_neg hk2]
            exact ih2 ⟨fun h => hnd.1 (Or.inr h), hnd.2.2⟩
      · simp only [eraseA, if_neg hx, lookupA, if_neg hx]
        exact ih hnd.2

theorem map_fst_eraseA_sublist (r : Reg) (x : String) :
    ((eraseA r x).map Prod.fst).Sublist (r.map Prod.fst) := by
  induction r with
  | nil => simp [eraseA]
  | cons hd tl ih =>
      obtain ⟨k', v'⟩ := hd
      by_cases hx : k' = x
      · simp only [eraseA, if_pos hx, List.map_cons]
        exact (List.sublist_cons_self _ _)
      · simp only [eraseA, if_neg hx, List.map_cons]
        exact ih.cons₂ _

theorem mem_of_lookupA {r : Reg} {k : String} {v : ActorData}
    (h : lookupA r k = some v) : (k, v) ∈ r := by
  induction r with
  | nil => simp [lookupA] at h
  | cons hd tl ih =>
      obtain ⟨k', v'⟩ := hd
      by_cases hk : k' = k
      · subst hk
        have hv : lookupA ((k', v') :: tl) k' = some v' := by simp [lookupA]
        rw [hv] at h
        injection h with h2
        subst h2
        exact List.mem_cons_self _ _
      · simp only [lookupA, if_neg hk] at h
        exact List.mem_cons_of_mem _ (ih h)

theorem lookupA_eq_of_mem {r : Reg} {k : String} {v : ActorData}
    (hnd : (r.map Prod.fst).Nodup) (h : (k, v) ∈ r) : lookupA r k = some v := by
  induction r with
  | nil => simp at h
  | cons hd tl ih =>
      obtain ⟨k', v'⟩ := hd
      simp only [List.map_cons, List.nodup_cons] at hnd
      rcases List.mem_cons.mp h with heq | htl
      · obtain ⟨h1, h2⟩ := Prod.mk.injEq .. ▸ heq
        simp [lookupA, h1.symm, h2]
      · have hk : ¬ k' = k := by
          intro hh
          subst hh
          exact hnd.1 (List.mem_map.mpr ⟨(k', v), htl, rfl⟩)
        simp only [lookupA, if_neg hk]
        exact ih hnd.2 htl

theorem lookupA_none_of_not_mem {r : Reg} {k : String}
    (h : k ∉ r.map Prod.fst) : lookupA r k = none := by
  induction r with
  | nil => rfl
  | cons hd tl ih =>
      obtain ⟨k', v'⟩ := hd
      simp only [List.map_cons, List.mem_cons] at h
      push_neg at h
      simp only [lookupA, if_neg (fun (hh : k' = k) => h.1 hh.symm)]
      exact ih h.2

theorem mem_map_fst_of_lookupA {r : Reg} {k : String} {v : ActorData}
    (h : lookupA r k = some v) : k ∈ r.map Prod.fst :=
  List.mem_map.mpr ⟨(k, v), mem_of_lookupA h, rfl⟩

/-! ### C7: send semantics -/

/-- C7: for an envelope whose recipient is not registered, `send` drops the
message and only appends a diagnostic log entry — it raises nothing and
leaves the registry (hence every mailbox) unchanged; for a registered
recipient it appends the envelope to exactly that recipient's mailbox,
leaving the log and every other registry entry unchanged.  (`send` is a
total function of the embedding: no exception path exists.) -/
theorem send_spec (st : SystemState) (m : ActorMessage) :
    (lookupA st.actors m.recipient = none →
       (send st m).actors = st.actors ∧
       (send st m).log = st.log ++ [LogEntry.warn "actor_not_found" m.recipient]) ∧
    (∀ a, lookupA st.actors m.recipient = some a →
       (send st m).log = st.log ∧
       lookupA (send st m).actors m.recipient = some { a with mailbox := a.mailbox ++ [m] } ∧
       (∀ k, k ≠ m.recipient → lookupA (send st m).actors k = lookupA st.actors k)) := by
  constructor
  · intro h
    simp [send, h]
  · intro a h
    refine ⟨by simp [send, h], ?_, ?_⟩
    · simp [send, h, lookupA_updateA]
    · intro k hk
      simp [send, h, lookupA_updateA, hk]

/-- Closed witness for `send_spec`. -/
theorem send_spec_witness :
    (send { actors := [] } { id := "m", recipient := "ghost", payload := .str "x" }).actors = [] ∧
    lookupA (send { actors := [("A", { mailbox := [] })] }
        { id := "m", recipient := "A", payload := .str "x" }).actors "A" =
      some { mailbox := [{ id := "m", recipient := "A", payload := .str "x" }] } := by
  constructor
  · exact ((send_spec { actors := [] } { id := "m", recipient := "ghost", payload := .str "x" }).1
      (by decide)).1
  · exact ((send_spec { actors := [("A", { mailbox := [] })] }
        { id := "m", recipient := "A", payload := .str "x" }).2 { mailbox := [] } (by decide)).2.1

/-! ### C8: broadcast semantics -/

theorem broadcast_lookup (m : ActorMessage) (ids : List String) : ∀ (st : SystemState) (r : String),
    lookupA (broadcast st m ids).actors r =
      (lookupA st.actors r).map (fun a =>
        { a with mailbox := a.mailbox ++ (ids.filter (fun i => decide (i = r))).map (copyTo m) }) := by
  induction ids with
  | nil =>
      intro st r
      simp only [broadcast, List.foldl_nil, List.filter_nil, List.map_nil, List.append_nil]
      cases lookupA st.actors r <;> rfl
  | cons i rest ih =>
      intro st r
      have hstep : broadcast st m (i :: rest) = broadcast (send st (copyTo m i)) m rest := rfl
      rw [hstep, ih]
      by_cases hreg : ∃ ai, lookupA st.actors i = some ai
      · obtain ⟨ai, hai⟩ := hreg
        have hsend : (send st (copyTo m i)).actors =
            updateA st.actors i (fun a => { a with mailbox := a.mailbox ++ [copyTo m i] }) := by
          simp [send, copyTo, hai]
        rw [hsend, lookupA_updateA]
        by_cases hir : r = i
        · subst hir
          simp [hai, List.filter_cons, List.append_assoc]
        · have : ¬ i = r := fun h => hir h.symm
          simp [List.filter_cons, this, hir]
      · push_neg at hreg
        have hnone : lookupA st.actors i = none := by
          cases hh : lookupA st.actors i with
          | none => rfl
          | some x => exact absurd hh (hreg x)
        have hsend : (send st (copyTo m i)).actors = st.actors := by
          simp [send, copyTo, hnone]
        rw [hsend]
        by_cases hir : i = r
        · subst hir
          simp [hnone]
        · simp [List.filter_cons, hir]

/-- C8: `broadcast` delivers to each registered identity in the list a copy
of the envelope identical in every field except `recipient` (appended to
that identity's mailbox, one copy per occurrence in the list); identities
absent from the registry are skipped without any failure and stay
unregistered. -/
theorem broadcast_spec (st : SystemState) (m : ActorMessage) (ids : List String) :
    (∀ r a, lookupA st.actors r = some a →
       lookupA (broadcast st m ids).actors r =
         some { a with mailbox := a.mailbox ++ (ids.filter (fun i => decide (i = r))).map (copyTo m) }) ∧
    (∀ r, lookupA st.actors r = none → lookupA (broadcast st m ids).actors r = none) ∧
    (∀ r, (copyTo m r).id = m.id ∧ (copyTo m r).sender = m.sender ∧
       (copyTo m r).payload = m.payload ∧ (copyTo m r).message_type = m.message_type ∧
       (copyTo m r).reply_to = m.reply_to ∧ (copyTo m r).correlation_id = m.correlation_id ∧
       (copyTo m r).timestamp = m.timestamp ∧ (copyTo m r).recipient = r) := by
  refine ⟨?_, ?_, fun r => ⟨rfl, rfl, rfl, rfl, rfl, rfl, rfl, rfl⟩⟩
  · intro r a ha
    rw [broadcast_lookup, ha]
    rfl
  · intro r ha
    rw [broadcast_lookup, ha]
    rfl

/-- Closed witness for `broadcast_spec`: broadcasting to `["A","B","ghost"]`
with `ghost` unregistered delivers one copy each to `A` and `B` and
surfaces no error for `ghost`. -/
theorem broadcast_spec_witness :
    lookupA (broadcast { actors := [("A", {}), ("B", {})] }
        { id := "m", recipient := "A", payload := .str "x" } ["A", "B", "ghost"]).actors "A" =
      some { mailbox := [{ id := "m", recipient := "A", payload := .str "x" }] } ∧
    lookupA (broadcast { actors := [("A", {}), ("B", {})] }
        { id := "m", recipient := "A", payload := .str "x" } ["A", "B", "ghost"]).actors "ghost" =
      none := by
  constructor
  · exact (broadcast_spec { actors := [("A", {}), ("B", {})] }
      { id := "m", recipient := "A", payload := .str "x" } ["A", "B", "ghost"]).1 "A" {} (by decide)
  · exact (broadcast_spec { actors := [("A", {}), ("B", {})] }
      { id := "m", recipient := "A", payload := .str "x" } ["A", "B", "ghost"]).2.1 "ghost" (by decide)

/-! ### C1: spawn with a duplicate identity -/

/-- Registry state for the C1 counterexample: identity `"A"` is registered
with a non-empty child set. -/
def stC1 : SystemState := { actors := [("A", { children := ["c"] })] }

/-- C1 counterexample: spawning a fresh actor under the already-registered
identity `"A"` does not fail — it silently replaces the existing
registration, so the identity-to-actor mapping entry for `"A"` changes. -/
theorem spawn_duplicate_cex :
    lookupA (spawn stC1 "A" {} none).1.actors "A" ≠ lookupA stC1.actors "A" := by
  decide

/-- C1 amended: `spawn` never fails.  Spawning an actor whose identity is
already present (with any parent other than the actor itself) silently
overwrites the registry entry: afterwards the identity maps to the newly
spawned actor (with its parent recorded), and the identity is returned. -/
theorem spawn_overwrites (st : SystemState) (actorId : String) (a : ActorData)
    (pid : Option String) (hself : pid ≠ some actorId) :
    lookupA (spawn st actorId a pid).1.actors actorId = some { a with parent_id := pid } ∧
    (spawn st actorId a pid).2 = actorId := by
  refine ⟨?_, rfl⟩
  unfold spawn
  cases pid with
  | none => simp [lookupA_insertA]
  | some p =>
      have hp : actorId ≠ p := fun h => hself (by rw [h])
      simp [lookupA_updateA, lookupA_insertA, hp]

/-- Closed witness for `spawn_overwrites`, at the duplicate identity of the
counterexample state. -/
theorem spawn_overwrites_witness :
    lookupA (spawn stC1 "A" {} (some "P")).1.actors "A" =
      some { parent_id := some "P" } ∧ (spawn stC1 "A" {} (some "P")).2 = "A" :=
  spawn_overwrites stC1 "A" {} (some "P") (by decide)

/-! ### C2: ask never observes its reply -/

/-- Registry state for the C2 theorem: caller and target both registered. -/
def stC2 : SystemState :=
  { actors := [("caller", { running := true, state := .RUNNING }),
               ("B", { running := true, state := .RUNNING })] }

/-- The request sent by `ask` in the C2 scenario. -/
def askReq : ActorMessage :=
  { id := "q1", recipient := "B", payload := .str "ping",
    message_type := .enum .REQUEST, sender := some "caller", reply_to := some "caller" }

/-- A reply addressed to the caller whose `correlation_id` matches the
request's `id`, arriving before the timeout. -/
def askReply : ActorMessage :=
  { id := "r1", recipient := "caller", payload := .str "pong",
    message_type := .enum .RESPONSE, sender := some "B", correlation_id := some "q1" }

/-- C2: the source's `ask` installs a reply future but never registers the
local `reply_handler` closure with the system, so no code path completes
the future: even when a matching-correlation reply arrives before the
timeout, `ask` raises `asyncio.TimeoutError`.  Evaluated at the failing
input, and in general: the outcome of `ask` (with a system attached) is
always `timeout`, and its only state effect is the `send` of the request. -/
theorem ask_always_times_out :
    (ask true stC2 askReq [askReply]).2 = AskOutcome.timeout ∧
    (∀ (st : SystemState) (m : ActorMessage) (replies : List ActorMessage),
       (ask true st m replies).2 = AskOutcome.timeout ∧
       (ask true st m replies).1 = send st m) :=
  ⟨rfl, fun _ _ _ => ⟨rfl, rfl⟩⟩

/-! ### C3: reply correlation of the concrete handlers -/

/-- The C3 scenario request: id `"m1"`, `reply_to` set, no caller-supplied
`correlation_id`. -/
def reqM1 : ActorMessage :=
  { id := "m1", recipient := "A", payload := .executeCommand "echo hi" 30,
    message_type := .enum .EXECUTE_COMMAND, reply_to := some "caller" }

/-- The C3 web-search request: id `"s1"`, `reply_to` set. -/
def reqS1 : ActorMessage :=
  { id := "s1", recipient := "W", payload := .webSearchQuery "lean" 5,
    message_type := .enum .WEB_SEARCH, reply_to := some "caller" }

/-- C3: both concrete handlers copy the incoming envelope's
`correlation_id` attribute into the reply instead of echoing the incoming
envelope's `id`.  At the spec's own scenario (request id `"m1"`, no
caller-supplied correlation id) the reply has kind `RESPONSE` as claimed
but `correlation_id = None`, not `"m1"`; the web-search handler behaves the
same way. -/
theorem reply_correlation_cex :
    ((handleExecuteCommand (fun _ => (true, "Safe"))
        (fun _ => .ok { stdout := "hi", stderr := "", exit_code := 0 }) "A" "u1" 9 reqM1).map
      (fun rm => (rm.message_type, rm.correlation_id, rm.recipient))) =
      some (.enum .RESPONSE, none, "caller") ∧
    ((handleWebSearch (fun _ => .ok ["res"]) "W" "u2" 9 reqS1).map
      (fun rm => (rm.message_type, rm.correlation_id))) = some (.enum .RESPONSE, none) :=
  ⟨rfl, rfl⟩

/-! ### C9: envelope construction -/

/-- C9 counterexample: supplying `recipient`, `payload` and `kind` but no
`id` does not construct an envelope with a generated id — the dataclass
raises `TypeError`, because `id` has no default. -/
theorem envelope_id_not_generated_cex :
    mkActorMessage { recipient := some "A", payload := some (.str "x"),
                     message_type := some (.enum .REQUEST) } 0 =
      .error "TypeError: missing required argument: id" := rfl

/-- C9 amended: envelope construction requires `id`, `recipient` and
`payload` from the caller (omitting `id` — or `recipient` or `payload` —
raises `TypeError` rather than generating a value); `kind` is optional and
defaults to `DEFAULT`, and `sender`, `reply_to`, `correlation_id` each
default to `None` (`timestamp` defaults to the creation time). -/
theorem envelope_construction_defaults (i r : String) (p : Payload) (now : Nat) :
    mkActorMessage { id := some i, recipient := some r, payload := some p } now =
      .ok { id := i, recipient := r, payload := p, message_type := .enum .DEFAULT,
            sender := none, reply_to := none, correlation_id := none, timestamp := now } ∧
    (∀ args : MsgArgs, args.id = none → ∃ e, mkActorMessage args now = .error e) := by
  refine ⟨rfl, ?_⟩
  intro args h
  obtain ⟨aid, arec, apay, amt, asnd, arpl, acor, ats⟩ := args
  simp only at h
  subst h
  cases arec <;> cases apay <;> exact ⟨_, rfl⟩

/-- Closed witness for `envelope_construction_defaults`. -/
theorem envelope_construction_defaults_witness :
    mkActorMessage { id := some "m1", recipient := some "A", payload := some (.str "x") } 3 =
      .ok { id := "m1", recipient := "A", payload := .str "x", message_type := .enum .DEFAULT,
            sender := none, reply_to := none, correlation_id := none, timestamp := 3 } ∧
    ∃ e, mkActorMessage { recipient := some "A", payload := some (.str "x") } 3 = .error e :=
  ⟨(envelope_construction_defaults "m1" "A" (.str "x") 3).1,
   (envelope_construction_defaults "m1" "A" (.str "x") 3).2
     { recipient := some "A", payload := some (.str "x") } rfl⟩

/-! ### C10: the child-failure envelope's kind -/

/-- C10: the child-failure notification is built with `kind` equal to the
plain string `"child_error"`, which is not a `MessageType` member: it
compares unequal to every enumeration value (so enum-dispatching handlers
fall through to their unknown-message branch), its payload carries the
failing actor's identity and the error description, and `to_dict` on it
raises `AttributeError` (a bare string has no `.value`). -/
theorem child_error_untyped_kind (errId selfId pid e : String) (now : Nat) :
    (childErrorMessage errId selfId pid e now).message_type = .raw "child_error" ∧
    (∀ t : MessageType, decide (MType.raw "child_error" = MType.enum t) = false) ∧
    (childErrorMessage errId selfId pid e now).payload = .childError selfId e ∧
    to_dict (childErrorMessage errId selfId pid e now) =
      .error "AttributeError: str object has no attribute value" := by
  refine ⟨rfl, ?_, rfl, rfl⟩
  intro t
  cases t <;> rfl

/-! ### C4: handler failures do not stop the dispatch loop -/

/-- C4: an actor whose handler raises on one envelope does not exit its
dispatch loop.  With a registered parent: the failing envelope is dequeued
and handled (`step1` handles `m1`), the actor moves to the `ERROR` state
while its `_running` flag stays set, the parent's mailbox receives the
dedicated child-failure envelope (payload = failing identity and error
description, per `childErrorMessage`), and the next loop iteration still
dequeues and handles the next envelope (`step2` handles `m2`). -/
theorem handler_failure_isolated (st : SystemState) (A P : String) (a p : ActorData)
    (m1 m2 : ActorMessage) (recv : ActorMessage → Except String Unit) (e : String)
    (errId errId2 : String) (now now2 : Nat)
    (hA : lookupA st.actors A = some a) (hP : lookupA st.actors P = some p) (hAP : A ≠ P)
    (hrun : a.running = true) (hmb : a.mailbox = [m1, m2]) (hpar : a.parent_id = some P)
    (h1 : recv m1 = .error e) (h2 : recv m2 = .ok ()) :
    (runStep recv errId now st A).2 = some m1 ∧
    lookupA (runStep recv errId now st A).1.actors A =
      some { a with mailbox := [m2], state := ActorState.ERROR } ∧
    lookupA (runStep recv errId now st A).1.actors P =
      some { p with mailbox := p.mailbox ++ [childErrorMessage errId A P e now] } ∧
    (runStep recv errId2 now2 (runStep recv errId now st A).1 A).2 = some m2 ∧
    lookupA (runStep recv errId2 now2 (runStep recv errId now st A).1 A).1.actors A =
      some { a with mailbox := [], state := ActorState.ERROR } := by
  have hPA : P ≠ A := Ne.symm hAP
  have hstep1A : lookupA (runStep recv errId now st A).1.actors A =
      some { a with mailbox := [m2], state := ActorState.ERROR } := by
    simp [runStep, hA, hrun, hmb, h1, hpar, send, childErrorMessage,
          lookupA_updateA, hAP, hPA, hP]
  refine ⟨?_, hstep1A, ?_, ?_, ?_⟩
  · simp [runStep, hA, hrun, hmb, h1, hpar]
  · simp [runStep, hA, hrun, hmb, h1, hpar, send, childErrorMessage,
          lookupA_updateA, hAP, hPA, hP]
  · generalize (runStep recv errId now st A).1 = st1 at hstep1A ⊢
    simp [runStep, hstep1A, hrun, h2]
  · generalize (runStep recv errId now st A).1 = st1 at hstep1A ⊢
    simp [runStep, hstep1A, hrun, h2, lookupA_updateA]

/-- Closed witness for `handler_failure_isolated`: a malformed first
envelope, a valid second one, and a registered parent. -/
theorem handler_failure_isolated_witness :
    (runStep (fun m => if m.id = "bad" then .error "boom" else .ok ()) "u1" 4
        { actors := [("P", { running := true }),
                     ("A", { mailbox := [{ id := "bad", recipient := "A", payload := .str "?" },
                                         { id := "good", recipient := "A", payload := .str "!" }],
                             parent_id := some "P", running := true })] } "A").2 =
      some { id := "bad", recipient := "A", payload := .str "?" } ∧
    (runStep (fun m => if m.id = "bad" then .error "boom" else .ok ()) "u2" 5
        (runStep (fun m => if m.id = "bad" then .error "boom" else .ok ()) "u1" 4
          { actors := [("P", { running := true }),
                       ("A", { mailbox := [{ id := "bad", recipient := "A", payload := .str "?" },
                                           { id := "good", recipient := "A", payload := .str "!" }],
                               parent_id := some "P", running := true })] } "A").1 "A").2 =
      some { id := "good", recipient := "A", payload := .str "!" } := by
  have h := handler_failure_isolated
    { actors := [("P", { running := true }),
                 ("A", { mailbox := [{ id := "bad", recipient := "A", payload := .str "?" },
                                     { id := "good", recipient := "A", payload := .str "!" }],
                         parent_id := some "P", running := true })] } "A" "P"
    { mailbox := [{ id := "bad", recipient := "A", payload := .str "?" },
                  { id := "good", recipient := "A", payload := .str "!" }],
      parent_id := some "P", running := true }
    { running := true }
    { id := "bad", recipient := "A", payload := .str "?" }
    { id := "good", recipient := "A", payload := .str "!" }
    (fun m => if m.id = "bad" then .error "boom" else .ok ()) "boom" "u1" "u2" 4 5
    (by decide) (by decide) (by decide) rfl rfl rfl rfl rfl
  exact ⟨h.1, h.2.2.2.1⟩

/-! ### C6: per-sender FIFO delivery -/

theorem sendAll_lookup (msgs : List ActorMessage) : ∀ (st : SystemState) (r : String),
    lookupA (sendAll st msgs).actors r =
      (lookupA st.actors r).map (fun a =>
        { a with mailbox := a.mailbox ++ msgs.filter (fun m => decide (m.recipient = r)) }) := by
  induction msgs with
  | nil =>
      intro st r
      simp only [sendAll, List.foldl_nil, List.filter_nil, List.append_nil]
      cases lookupA st.actors r <;> rfl
  | cons m rest ih =>
      intro st r
      have hstep : sendAll st (m :: rest) = sendAll (send st m) rest := rfl
      rw [hstep, ih]
      by_cases hreg : ∃ am, lookupA st.actors m.recipient = some am
      · obtain ⟨am, ham⟩ := hreg
        have hsend : (send st m).actors =
            updateA st.actors m.recipient (fun a => { a with mailbox := a.mailbox ++ [m] }) := by
          simp [send, ham]
        rw [hsend, lookupA_updateA]
        by_cases hir : r = m.recipient
        · subst hir
          simp [ham, List.filter_cons, List.append_assoc]
        · have : ¬ m.recipient = r := fun h => hir h.symm
          simp [List.filter_cons, this, hir]
      · push_neg at hreg
        have hnone : lookupA st.actors m.recipient = none := by
          cases hh : lookupA st.actors m.recipient with
          | none => rfl
          | some x => exact absurd hh (hreg x)
        have hsend : (send st m).actors = st.actors := by
          simp [send, hnone]
        rw [hsend]
        by_cases hir : m.recipient = r
        · subst hir
          simp [hnone]
        · simp [List.filter_cons, hir]

theorem drainN_all_ok (recv : ActorMessage → Except String Unit) (errId : String) (now : Nat)
    (hok : ∀ m, recv m = .ok ()) :
    ∀ (n : Nat) (st : SystemState) (B : String) (b : ActorData),
      lookupA st.actors B = some b → b.running = true → n = b.mailbox.length →
      (drainN recv errId now n st B).2 = b.mailbox := by
  intro n
  induction n with
  | zero =>
      intro st B b hB hrun hlen
      have : b.mailbox = [] := List.eq_nil_of_length_eq_zero hlen.symm
      simp [drainN, this]
  | succ k ih =>
      intro st B b hB hrun hlen
      cases hmb : b.mailbox with
      | nil => rw [hmb] at hlen; simp at hlen
      | cons m rest =>
          have hstep : runStep recv errId now st B =
              ({ st with actors := (updateA st.actors B
                  (fun x => { x with mailbox := rest })) }, some m) := by
            simp [runStep, hB, hrun, hmb, hok m]
          have hlook : lookupA ({ st with actors := (updateA st.actors B
              (fun x => { x with mailbox := rest })) } : SystemState).actors B =
              some { b with mailbox := rest } := by
            simp [lookupA_updateA, hB]
          have hlen2 : k = rest.length := by
            rw [hmb] at hlen
            simpa using hlen
          have := ih ({ st with actors := (updateA st.actors B
              (fun x => { x with mailbox := rest })) }) B { b with mailbox := rest }
              hlook hrun hlen2
          simp only [drainN, hstep]
          simpa [hmb] using congrArg (List.cons m) this

/-- C6: messages are delivered sender-to-recipient in FIFO order.  After any
interleaved global trace of `send` calls, the mailbox of a registered actor
`B` equals its old mailbox followed by exactly the trace's envelopes
addressed to `B`, in trace order (so `put` never drops an envelope and the
queue is unbounded FIFO); restricting to the envelopes from any one sender
`A` yields A's sends to B in A's send order, regardless of interleaving;
and the dispatch loop dequeues and hands the mailbox to the handler in
exactly that order. -/
theorem fifo_per_sender (st : SystemState) (B : String) (b : ActorData)
    (hB : lookupA st.actors B = some b) (msgs : List ActorMessage) (A : String) :
    ∃ b', lookupA (sendAll st msgs).actors B = some b' ∧
      b'.mailbox = b.mailbox ++ msgs.filter (fun m => decide (m.recipient = B)) ∧
      b'.mailbox.filter (fun m => decide (m.sender = some A)) =
        b.mailbox.filter (fun m => decide (m.sender = some A)) ++
          (msgs.filter (fun m => decide (m.recipient = B))).filter
            (fun m => decide (m.sender = some A)) ∧
      (∀ (n : Nat) (recv : ActorMessage → Except String Unit) (errId : String) (now : Nat),
         (∀ m, recv m = .ok ()) → b'.running = true → n = b'.mailbox.length →
         (drainN recv errId now n (sendAll st msgs) B).2 = b'.mailbox) := by
  refine ⟨{ b with mailbox := b.mailbox ++ msgs.filter (fun m => decide (m.recipient = B)) },
    ?_, rfl, ?_, ?_⟩
  · rw [sendAll_lookup, hB]
    rfl
  · exact List.filter_append ..
  · intro n recv errId now hok hrun hlen
    refine drainN_all_ok recv errId now hok n (sendAll st msgs) B _ ?_ hrun hlen
    rw [sendAll_lookup, hB]
    rfl

/-- The interleaved send trace of the C6 witness: sender `A` twice to `B`,
sender `C` once to `B` in between and once elsewhere. -/
def msgsC6 : List ActorMessage :=
  [{ id := "a1", recipient := "B", payload := .str "1", sender := some "A" },
   { id := "c1", recipient := "B", payload := .str "x", sender := some "C" },
   { id := "a2", recipient := "B", payload := .str "2", sender := some "A" },
   { id := "c2", recipient := "other", payload := .str "y", sender := some "C" }]

/-- Initial state of the C6 witness. -/
def stC6 : SystemState := { actors := [("B", { running := true })] }

/-- Closed witness for `fifo_per_sender`: two senders interleave sends to
`B`; `B`'s mailbox holds all envelopes addressed to it in trace order, the
`A`-subsequence is in `A`'s send order, and draining hands them to the
handler in that order. -/
theorem fifo_per_sender_witness :
    ∃ b', lookupA (sendAll stC6 msgsC6).actors "B" = some b' ∧
      b'.mailbox = [{ id := "a1", recipient := "B", payload := .str "1", sender := some "A" },
         { id := "c1", recipient := "B", payload := .str "x", sender := some "C" },
         { id := "a2", recipient := "B", payload := .str "2", sender := some "A" }] ∧
      b'.mailbox.filter (fun m => decide (m.sender = some "A")) =
        [{ id := "a1", recipient := "B", payload := .str "1", sender := some "A" },
         { id := "a2", recipient := "B", payload := .str "2", sender := some "A" }] ∧
      (drainN (fun _ => .ok ()) "u" 0 3 (sendAll stC6 msgsC6) "B").2 = b'.mailbox := by
  obtain ⟨b', h1, h2, h3, h4⟩ :=
    fifo_per_sender stC6 "B" { running := true } (by decide) msgsC6 "A"
  have hcalc : lookupA (sendAll stC6 msgsC6).actors "B" =
      some { mailbox := [{ id := "a1", recipient := "B", payload := .str "1", sender := some "A" },
               { id := "c1", recipient := "B", payload := .str "x", sender := some "C" },
               { id := "a2", recipient := "B", payload := .str "2", sender := some "A" }],
             running := true } := by decide
  rw [hcalc] at h1
  injection h1 with hb
  subst hb
  exact ⟨_, hcalc, rfl, rfl, h4 3 (fun _ => .ok ()) "u" 0 (fun _ => rfl) rfl rfl⟩

/-! ### C5: recursive stop — supervision-forest theory -/

/-- The child set recorded for an identity, when it is registered. -/
def childrenOf (r : Reg) (k : String) : Option (List String) :=
  (lookupA r k).map ActorData.children

/-- Proper descendant relation over an abstract child map: `DescC f p k`
holds when `k` is reachable from `p` by one or more recorded child edges. -/
inductive DescC (f : String → Option (List String)) : String → String → Prop
  | child {p c : String} {cs : List String} :
      f p = some cs → c ∈ cs → DescC f p c
  | tail {p c k : String} {cs : List String} :
      f p = some cs → c ∈ cs → DescC f c k → DescC f p k

/-- `Desc r p k`: `k` is a transitively recorded child of `p` in registry `r`. -/
def Desc (r : Reg) : String → String → Prop :=
  DescC (childrenOf r)

/-- Well-formed supervision forest: registry keys are duplicate-free, every
recorded child is registered with its parent pointer set back to the
recording actor, and children strictly decrease the `rank` measure (which
rules out cycles in the recorded-child graph). -/
def WF (r : Reg) (rank : String → Nat) : Prop :=
  (r.map Prod.fst).Nodup ∧
  ∀ e ∈ r, ∀ c ∈ (Prod.snd e).children,
    (lookupA r c).map ActorData.parent_id = some (some e.1) ∧ rank c < rank e.1

instance (r : Reg) (rank : String → Nat) : Decidable (WF r rank) := by
  unfold WF
  infer_instance

theorem WF.nodupKeys {r : Reg} {rank : String → Nat} (h : WF r rank) :
    (r.map Prod.fst).Nodup := h.1

theorem WF.to_lookup {r : Reg} {rank : String → Nat} (h : WF r rank)
    {p : String} {pd : ActorData} (hp : lookupA r p = some pd)
    {c : String} (hc : c ∈ pd.children) :
    (∃ cd, lookupA r c = some cd ∧ cd.parent_id = some p) ∧ rank c < rank p := by
  have := h.2 (p, pd) (mem_of_lookupA hp) c hc
  refine ⟨?_, this.2⟩
  cases hcd : lookupA r c with
  | none => rw [hcd] at this; exact absurd this.1 (by simp)
  | some cd =>
      rw [hcd] at this
      refine ⟨cd, rfl, ?_⟩
      simpa using this.1

theorem WF_of_lookup_form {r : Reg} {rank : String → Nat}
    (hnd : (r.map Prod.fst).Nodup)
    (h : ∀ p pd, lookupA r p = some pd → ∀ c ∈ pd.children,
      (∃ cd, lookupA r c = some cd ∧ cd.parent_id = some p) ∧ rank c < rank p) :
    WF r rank := by
  refine ⟨hnd, ?_⟩
  intro e he c hc
  obtain ⟨⟨cd, hcd, hcp⟩, hrk⟩ := h e.1 e.2 (lookupA_eq_of_mem hnd (by cases e; exact he)) c hc
  rw [hcd]
  exact ⟨by simp [hcp], hrk⟩

theorem WF.parent_unique {r : Reg} {rank : String → Nat} (h : WF r rank)
    {q q' : String} {qd qd' : ActorData} (hq : lookupA r q = some qd)
    (hq' : lookupA r q' = some qd') {c : String}
    (hc : c ∈ qd.children) (hc' : c ∈ qd'.children) : q = q' := by
  obtain ⟨⟨cd, hcd, hcp⟩, _⟩ := h.to_lookup hq hc
  obtain ⟨⟨cd', hcd', hcp'⟩, _⟩ := h.to_lookup hq' hc'
  rw [hcd] at hcd'
  have he : cd = cd' := Option.some.inj hcd'
  subst he
  rw [hcp] at hcp'
  exact Option.some.inj hcp'

theorem descC_congr {f g : String → Option (List String)}
    (hfg : ∀ x, f x = g x) {p k : String} (h : DescC f p k) : DescC g p k := by
  induction h with
  | child hfp hmem => exact DescC.child (hfg _ ▸ hfp) hmem
  | tail hfp hmem _ ih => exact DescC.tail (hfg _ ▸ hfp) hmem ih

theorem descC_trans {f : String → Option (List String)} {p q k : String}
    (h1 : DescC f p q) (h2 : DescC f q k) : DescC f p k := by
  induction h1 with
  | child hfp hmem => exact DescC.tail hfp hmem h2
  | tail hfp hmem _ ih => exact DescC.tail hfp hmem (ih h2)

theorem descC_first_inv {f : String → Option (List String)} {p k : String}
    (h : DescC f p k) : ∃ cs, f p = some cs ∧ ∃ c ∈ cs, (k = c ∨ DescC f c k) := by
  cases h with
  | child hfp hmem => exact ⟨_, hfp, _, hmem, Or.inl rfl⟩
  | tail hfp hmem hd => exact ⟨_, hfp, _, hmem, Or.inr hd⟩

theorem descC_last_inv {f : String → Option (List String)} {p k : String}
    (h : DescC f p k) : ∃ q cs, f q = some cs ∧ k ∈ cs ∧ (q = p ∨ DescC f p q) := by
  induction h with
  | child hfp hmem => exact ⟨_, _, hfp, hmem, Or.inl rfl⟩
  | tail hfp hmem hd ih =>
      obtain ⟨q, cs2, hq, hk, hrest⟩ := ih
      refine ⟨q, cs2, hq, hk, Or.inr ?_⟩
      rcases hrest with he | hdq
      · subst he
        exact DescC.child hfp hmem
      · exact DescC.tail hfp hmem hdq

theorem descC_mono {f g : String → Option (List String)}
    (hsub : ∀ q cs1, f q = some cs1 → ∃ cs0, g q = some cs0 ∧ ∀ x ∈ cs1, x ∈ cs0)
    {p k : String} (h : DescC f p k) : DescC g p k := by
  induction h with
  | child hfp hmem =>
      obtain ⟨cs0, hg, hs⟩ := hsub _ _ hfp
      exact DescC.child hg (hs _ hmem)
  | tail hfp hmem _ ih =>
      obtain ⟨cs0, hg, hs⟩ := hsub _ _ hfp
      exact DescC.tail hg (hs _ hmem) ih

theorem desc_rank {r : Reg} {rank : String → Nat} (hwf : WF r rank)
    {p k : String} (h : Desc r p k) : rank k < rank p := by
  induction h with
  | child hfp hmem =>
      cases hl : lookupA r _ with
      | none => rw [childrenOf, hl] at hfp; exact absurd hfp (by simp)
      | some pd =>
          rw [childrenOf, hl] at hfp
          injection hfp with he
          exact (hwf.to_lookup hl (he ▸ hmem)).2
  | tail hfp hmem _ ih =>
      refine lt_trans ih ?_
      cases hl : lookupA r _ with
      | none => rw [childrenOf, hl] at hfp; exact absurd hfp (by simp)
      | some pd =>
          rw [childrenOf, hl] at hfp
          injection hfp with he
          exact (hwf.to_lookup hl (he ▸ hmem)).2

/-- Restoring a descendant path after one subtree (rooted at `c`) has been
removed: a path avoiding the removed set survives with its child edges
filtered only by `c`. -/
theorem descC_restore {f g : String → Option (List String)} {c : String}
    {Rem : String → Prop}
    (hRemIff : ∀ k, Rem k ↔ (k = c ∨ DescC f c k))
    (hg : ∀ q, ¬ Rem q →
      g q = (f q).map (fun cs => cs.filter (fun x => decide (x ≠ c)))) :
    ∀ x k, DescC f x k → ¬ Rem x → ¬ Rem k → DescC g x k := by
  intro x k h
  induction h with
  | @child p q cs hfp hmem =>
      intro hx hk
      have hgp : g p = some (cs.filter (fun y => decide (y ≠ c))) := by
        rw [hg _ hx, hfp]
        rfl
      refine DescC.child hgp (List.mem_filter.mpr ⟨hmem, ?_⟩)
      simp only [decide_eq_true_eq]
      intro he
      exact hk ((hRemIff _).mpr (Or.inl he))
  | @tail p q k2 cs hfp hmem hd ih =>
      intro hx hk
      have hm : ¬ Rem q := by
        intro hRm
        rcases (hRemIff _).mp hRm with he | hdm
        · exact hk ((hRemIff _).mpr (Or.inr (he ▸ hd)))
        · exact hk ((hRemIff _).mpr (Or.inr (descC_trans hdm hd)))
      have hgp : g p = some (cs.filter (fun y => decide (y ≠ c))) := by
        rw [hg _ hx, hfp]
        rfl
      refine DescC.tail hgp (List.mem_filter.mpr ⟨hmem, ?_⟩) (ih hm hk)
      simp only [decide_eq_true_eq]
      intro he
      exact hm ((hRemIff _).mpr (Or.inl he))

/-- The in-place child-set update applied to the parent of a stopped actor. -/
def childFilter (x : String) (d : ActorData) : ActorData :=
  { d with children := removeChild d.children x }

theorem childFilter_id {x : String} {d : ActorData} (h : x ∉ d.children) :
    childFilter x d = d := by
  have hf : d.children.filter (fun c => decide (c ≠ x)) = d.children := by
    apply List.filter_eq_self.mpr
    intro a ha
    simp only [decide_eq_true_eq]
    intro he
    exact h (he ▸ ha)
  unfold childFilter removeChild
  rw [hf]

theorem childrenOf_updateA_preserve {r : Reg} {k : String} {f : ActorData → ActorData}
    (hf : ∀ d, (f d).children = d.children) (q : String) :
    childrenOf (updateA r k f) q = childrenOf r q := by
  unfold childrenOf
  rw [lookupA_updateA]
  by_cases hq : q = k
  · subst hq
    rw [if_pos rfl]
    cases hl : lookupA r q with
    | none => rfl
    | some d => simp [hf]
  · rw [if_neg hq]

theorem WF_updateA_preserve {r : Reg} {rank : String → Nat} {k : String}
    {f : ActorData → ActorData} (hwf : WF r rank)
    (hf : ∀ d, (f d).children = d.children ∧ (f d).parent_id = d.parent_id) :
    WF (updateA r k f) rank := by
  refine WF_of_lookup_form (by rw [map_fst_updateA]; exact hwf.nodupKeys) ?_
  intro p pd hp c hc
  rw [lookupA_updateA] at hp
  have key : ∀ pd0, lookupA r p = some pd0 → pd.children = pd0.children →
      (∃ cd, lookupA (updateA r k f) c = some cd ∧ cd.parent_id = some p) ∧ rank c < rank p := by
    intro pd0 hp0 hch
    obtain ⟨⟨cd, hcd, hcp⟩, hrk⟩ := hwf.to_lookup hp0 (hch ▸ hc)
    refine ⟨?_, hrk⟩
    rw [lookupA_updateA]
    by_cases hck : c = k
    · subst hck
      rw [if_pos rfl, hcd]
      exact ⟨f cd, rfl, (hf cd).2 ▸ hcp⟩
    · rw [if_neg hck]
      exact ⟨cd, hcd, hcp⟩
  by_cases hpk : p = k
  · rw [if_pos hpk] at hp
    cases hl : lookupA r k with
    | none => rw [hl] at hp; exact absurd hp (by simp)
    | some pd0 =>
        rw [hl] at hp
        injection hp with he
        exact key pd0 (hpk ▸ hl) (he ▸ (hf pd0).1)
  · rw [if_neg hpk] at hp
    exact key pd hp rfl

theorem filter_not_mem_self (cs : List String) (sub : List String)
    (hsub : ∀ x ∈ cs, x ∈ sub) :
    cs.filter (fun x => decide (x ∉ sub)) = [] := by
  rw [List.filter_eq_nil_iff]
  intro a ha
  simp only [decide_eq_true_eq, Decidable.not_not]
  exact hsub a ha

theorem filter_ne_then_notmem (l : List String) (c : String) (rest : List String) :
    (l.filter (fun x => decide (x ≠ c))).filter (fun x => decide (x ∉ rest)) =
      l.filter (fun x => decide (x ∉ c :: rest)) := by
  rw [List.filter_filter]
  apply List.filter_congr
  intro x _
  by_cases h1 : x = c <;> by_cases h2 : x ∈ rest <;> simp [h1, h2]

/-- Characterisation of one `stopOne` call on a well-formed forest: unknown
identities are a complete no-op; the target and all its transitively
recorded children disappear from the registry; every other entry survives
with only the target filtered out of its child set; keys shrink; and
well-formedness is preserved. -/
def StopCharP (fuel : Nat) : Prop :=
  ∀ (st : SystemState) (rank : String → Nat) (actorId : String),
    WF st.actors rank →
    (∀ a, lookupA st.actors actorId = some a → rank actorId < fuel) →
    (lookupA st.actors actorId = none → stopOne fuel st actorId = st) ∧
    (∀ k, k = actorId ∨ Desc st.actors actorId k →
       lookupA (stopOne fuel st actorId).actors k = none) ∧
    (∀ k, k ≠ actorId → ¬ Desc st.actors actorId k →
       lookupA (stopOne fuel st actorId).actors k =
         (lookupA st.actors k).map (childFilter actorId)) ∧
    ((stopOne fuel st actorId).actors.map Prod.fst).Sublist (st.actors.map Prod.fst) ∧
    WF (stopOne fuel st actorId).actors rank

/-- Characterisation of the recursive child-stopping fold, for a list of
roots that all share the parent `pid` (which lies outside their subtrees). -/
def FoldP (fuel : Nat) : Prop :=
  ∀ (cs : List String) (s0 : SystemState) (rank : String → Nat) (pid : String),
    WF s0.actors rank →
    (∀ c ∈ cs, ∀ cd, lookupA s0.actors c = some cd →
       cd.parent_id = some pid ∧ rank c < fuel) →
    (∀ c ∈ cs, pid ≠ c ∧ ¬ Desc s0.actors c pid) →
    (∀ k, (∃ c ∈ cs, k = c ∨ Desc s0.actors c k) →
       lookupA (cs.foldl (fun s c => stopOne fuel s c) s0).actors k = none) ∧
    (∀ k, k ≠ pid → ¬ (∃ c ∈ cs, k = c ∨ Desc s0.actors c k) →
       lookupA (cs.foldl (fun s c => stopOne fuel s c) s0).actors k = lookupA s0.actors k) ∧
    (lookupA (cs.foldl (fun s c => stopOne fuel s c) s0).actors pid =
       (lookupA s0.actors pid).map (fun d =>
         { d with children := d.children.filter (fun x => decide (x ∉ cs)) })) ∧
    ((cs.foldl (fun s c => stopOne fuel s c) s0).actors.map Prod.fst).Sublist
      (s0.actors.map Prod.fst) ∧
    WF (cs.foldl (fun s c => stopOne fuel s c) s0).actors rank

theorem foldP_of_stopCharP (fuel : Nat) (hstop : StopCharP fuel) : FoldP fuel := by
  intro cs
  induction cs with
  | nil =>
      intro s0 rank pid hwf hpar hpid
      refine ⟨?_, ?_, ?_, List.Sublist.refl _, hwf⟩
      · rintro k ⟨x, hx, _⟩
        exact absurd hx (List.not_mem_nil x)
      · intro k _ _
        rfl
      · simp only [List.foldl_nil]
        cases hl : lookupA s0.actors pid with
        | none => rfl
        | some d =>
            simp only [Option.map_some']
            have hf : d.children.filter (fun x => decide (x ∉ ([] : List String))) = d.children := by
              apply List.filter_eq_self.mpr
              intro a _
              simp
            rw [hf]
  | cons c rest ih =>
      intro s0 rank pid hwf hpar hpid
      obtain ⟨hnoop1, hrem1, hsurv1, hsub1, hwf1⟩ :=
        hstop s0 rank c hwf (fun a ha => (hpar c (List.mem_cons_self c rest) a ha).2)
      -- monotonicity of the child map from the post-head state to the start state
      have hcmono : ∀ q cs1, childrenOf (stopOne fuel s0 c).actors q = some cs1 →
          ∃ cs0, childrenOf s0.actors q = some cs0 ∧ ∀ x ∈ cs1, x ∈ cs0 := by
        intro q cs1 hq
        obtain ⟨qd, hqd, hch⟩ : ∃ qd,
            lookupA (stopOne fuel s0 c).actors q = some qd ∧ qd.children = cs1 := by
          unfold childrenOf at hq
          cases hl : lookupA (stopOne fuel s0 c).actors q with
          | none => rw [hl] at hq; exact absurd hq (by simp)
          | some qd =>
              rw [hl] at hq
              exact ⟨qd, rfl, Option.some.inj hq⟩
        by_cases hqr : q = c ∨ Desc s0.actors c q
        · rw [hrem1 q hqr] at hqd
          exact absurd hqd (by simp)
        · push_neg at hqr
          rw [hsurv1 q hqr.1 hqr.2] at hqd
          cases hl0 : lookupA s0.actors q with
          | none => rw [hl0] at hqd; exact absurd hqd (by simp)
          | some qd0 =>
              rw [hl0] at hqd
              have hqe : childFilter c qd0 = qd := Option.some.inj hqd
              refine ⟨qd0.children, by rw [childrenOf, hl0]; rfl, ?_⟩
              intro x hx
              rw [← hch, ← hqe] at hx
              simp only [childFilter, removeChild] at hx
              exact (List.mem_filter.mp hx).1
      -- surviving descendant paths are preserved into the post-head state
      have hrestore : ∀ x k, Desc s0.actors x k → ¬(x = c ∨ Desc s0.actors c x) →
          ¬(k = c ∨ Desc s0.actors c k) → Desc (stopOne fuel s0 c).actors x k := by
        intro x k hd hx hk
        refine @descC_restore (childrenOf s0.actors) (childrenOf (stopOne fuel s0 c).actors) c
          (fun q => q = c ∨ DescC (childrenOf s0.actors) c q)
          (fun q => Iff.rfl) ?_ x k hd hx hk
        intro q hq
        have hq2 := not_or.mp hq
        unfold childrenOf
        rw [hsurv1 q hq2.1 hq2.2]
        cases lookupA s0.actors q with
        | none => rfl
        | some qd => rfl
      have hparrest : ∀ c' ∈ rest, ∀ cd, lookupA (stopOne fuel s0 c).actors c' = some cd →
          cd.parent_id = some pid ∧ rank c' < fuel := by
        intro c' hc' cd hcd
        by_cases hcr : c' = c ∨ Desc s0.actors c c'
        · rw [hrem1 c' hcr] at hcd
          exact absurd hcd (by simp)
        · push_neg at hcr
          rw [hsurv1 c' hcr.1 hcr.2] at hcd
          cases hl0 : lookupA s0.actors c' with
          | none => rw [hl0] at hcd; exact absurd hcd (by simp)
          | some cd0 =>
              rw [hl0] at hcd
              have he : childFilter c cd0 = cd := Option.some.inj hcd
              have hp0 := hpar c' (List.mem_cons_of_mem c hc') cd0 hl0
              rw [← he]
              exact ⟨hp0.1, hp0.2⟩
      have hpidrest : ∀ c' ∈ rest, pid ≠ c' ∧ ¬ Desc (stopOne fuel s0 c).actors c' pid := by
        intro c' hc'
        refine ⟨(hpid c' (List.mem_cons_of_mem c hc')).1, ?_⟩
        intro hd
        exact (hpid c' (List.mem_cons_of_mem c hc')).2 (descC_mono hcmono hd)
      obtain ⟨hrem2, hsurv2, hpid2, hsub2, hwf2⟩ :=
        ih (stopOne fuel s0 c) rank pid hwf1 hparrest hpidrest
      have hpres : ∀ k, lookupA (stopOne fuel s0 c).actors k = none →
          lookupA (rest.foldl (fun s c => stopOne fuel s c) (stopOne fuel s0 c)).actors k =
            none := by
        intro k hk
        by_cases hk2 : ∃ c' ∈ rest, k = c' ∨ Desc (stopOne fuel s0 c).actors c' k
        · exact hrem2 k hk2
        · by_cases hkpid : k = pid
          · subst hkpid
            rw [hpid2, hk]
            rfl
          · rw [hsurv2 k hkpid hk2]
            exact hk
      refine ⟨?_, ?_, ?_, ?_, ?_⟩
      · rintro k ⟨x, hx, hxk⟩
        simp only [List.foldl_cons]
        rcases List.mem_cons.mp hx with hxc | hxr
        · subst hxc
          exact hpres k (hrem1 k hxk)
        · by_cases hkc : k = c ∨ Desc s0.actors c k
          · exact hpres k (hrem1 k hkc)
          · rcases hxk with he | hdxk
            · subst he
              exact hrem2 k ⟨k, hxr, Or.inl rfl⟩
            · have hxnr : ¬ (x = c ∨ Desc s0.actors c x) := by
                intro hxrem
                rcases hxrem with he2 | hdcx
                · exact hkc (Or.inr (he2 ▸ hdxk))
                · exact hkc (Or.inr (descC_trans hdcx hdxk))
              exact hrem2 k ⟨x, hxr, Or.inr (hrestore x k hdxk hxnr hkc)⟩
      · intro k hkpid hknr
        simp only [List.foldl_cons]
        have hknrc : ¬ (k = c ∨ Desc s0.actors c k) := by
          intro h
          exact hknr ⟨c, List.mem_cons_self c rest, h⟩
        push_neg at hknrc
        have hs1k : lookupA (stopOne fuel s0 c).actors k = lookupA s0.actors k := by
          rw [hsurv1 k hknrc.1 hknrc.2]
          cases hl : lookupA s0.actors k with
          | none => rfl
          | some kd =>
              simp only [Option.map_some']
              congr 1
              apply childFilter_id
              intro hmemc
              have hcp := (hwf.to_lookup hl hmemc).1
              obtain ⟨cd, hcd, hcppar⟩ := hcp
              have hp0 := hpar c (List.mem_cons_self c rest) cd hcd
              rw [hp0.1] at hcppar
              exact hkpid (Option.some.inj hcppar).symm
        have hknr2 : ¬ ∃ c' ∈ rest, k = c' ∨ Desc (stopOne fuel s0 c).actors c' k := by
          rintro ⟨c', hc', he | hd⟩
          · exact hknr ⟨c', List.mem_cons_of_mem c hc', Or.inl he⟩
          · exact hknr ⟨c', List.mem_cons_of_mem c hc', Or.inr (descC_mono hcmono hd)⟩
        rw [hsurv2 k hkpid hknr2]
        exact hs1k
      · simp only [List.foldl_cons]
        rw [hpid2, hsurv1 pid (hpid c (List.mem_cons_self c rest)).1
          (hpid c (List.mem_cons_self c rest)).2]
        cases hl : lookupA s0.actors pid with
        | none => rfl
        | some d =>
            simp only [Option.map_some', childFilter, removeChild]
            rw [filter_ne_then_notmem]
      · simp only [List.foldl_cons]
        exact hsub2.trans hsub1
      · simp only [List.foldl_cons]
        exact hwf2

/-- Well-formedness follows from the removal/survivor characterisation:
the registry that results from deleting a subtree and filtering the root
out of child sets is again a well-formed forest. -/
theorem WF_of_char {r rfin : Reg} {rank : String → Nat} {actorId : String}
    (hwf : WF r rank)
    (hB : ∀ k, k = actorId ∨ Desc r actorId k → lookupA rfin k = none)
    (hC : ∀ k, k ≠ actorId → ¬ Desc r actorId k →
       lookupA rfin k = (lookupA r k).map (childFilter actorId))
    (hnd : (rfin.map Prod.fst).Nodup) : WF rfin rank := by
  refine WF_of_lookup_form hnd ?_
  intro q qd hq c hc
  by_cases hqr : q = actorId ∨ Desc r actorId q
  · rw [hB q hqr] at hq
    exact Option.noConfusion hq
  · have hqr2 := not_or.mp hqr
    rw [hC q hqr2.1 hqr2.2] at hq
    cases hl0 : lookupA r q with
    | none => rw [hl0] at hq; exact Option.noConfusion hq
    | some qd0 =>
        rw [hl0] at hq
        have hqe : childFilter actorId qd0 = qd := Option.some.inj hq
        have hcmem : c ∈ qd0.children ∧ c ≠ actorId := by
          rw [← hqe] at hc
          simp only [childFilter, removeChild] at hc
          have := List.mem_filter.mp hc
          exact ⟨this.1, by simpa using this.2⟩
        obtain ⟨⟨cd0, hcd0, hcp0⟩, hrk0⟩ := hwf.to_lookup hl0 hcmem.1
        have hcnr : ¬ Desc r actorId c := by
          intro hdc
          obtain ⟨q', cs', hq', hcmem', hrest⟩ := descC_last_inv hdc
          obtain ⟨q'd, hq'd, hch'⟩ : ∃ q'd, lookupA r q' = some q'd ∧ q'd.children = cs' := by
            unfold childrenOf at hq'
            cases hl' : lookupA r q' with
            | none => rw [hl'] at hq'; exact absurd hq' (by simp)
            | some x => rw [hl'] at hq'; exact ⟨x, rfl, Option.some.inj hq'⟩
          have heq : q' = q := hwf.parent_unique hq'd hl0 (hch' ▸ hcmem') hcmem.1
          subst heq
          exact hqr hrest
        refine ⟨⟨childFilter actorId cd0, ?_, hcp0⟩, lt_of_lt_of_le hrk0 (le_of_eq rfl)⟩
        rw [hC c hcmem.2 hcnr, hcd0]
        rfl

theorem stopCharP_zero : StopCharP 0 := by
  intro st rank actorId hwf hfuel
  have ha : lookupA st.actors actorId = none := by
    cases hl : lookupA st.actors actorId with
    | none => rfl
    | some a => exact absurd (hfuel a hl) (Nat.not_lt_zero _)
  have hstop : stopOne 0 st actorId = st := rfl
  refine ⟨fun _ => hstop, ?_, ?_, hstop ▸ List.Sublist.refl _, hstop ▸ hwf⟩
  · intro k hk
    rw [hstop]
    rcases hk with he | hd
    · exact he ▸ ha
    · obtain ⟨cs, hcs, _⟩ := descC_first_inv hd
      rw [childrenOf, ha] at hcs
      exact absurd hcs (by simp)
  · intro k hkne hknd
    rw [hstop]
    cases hl : lookupA st.actors k with
    | none => rfl
    | some kd =>
        simp only [Option.map_some']
        have hnm : actorId ∉ kd.children := by
          intro hmem
          obtain ⟨⟨cd, hcd, _⟩, _⟩ := hwf.to_lookup hl hmem
          rw [ha] at hcd
          exact Option.noConfusion hcd
        rw [childFilter_id hnm]

theorem stopCharP_succ (fuel : Nat) (ihp : StopCharP fuel) : StopCharP (fuel + 1) := by
  have hfold := foldP_of_stopCharP fuel ihp
  intro st rank actorId hwf hfuel
  cases ha : lookupA st.actors actorId with
  | none =>
      have hstop : stopOne (fuel + 1) st actorId = st := by
        simp only [stopOne, ha]
      refine ⟨fun _ => hstop, ?_, ?_, ?_, ?_⟩
      · intro k hk
        rw [hstop]
        rcases hk with he | hd
        · exact he ▸ ha
        · obtain ⟨cs, hcs, _⟩ := descC_first_inv hd
          rw [childrenOf, ha] at hcs
          exact absurd hcs (by simp)
      · intro k hkne hknd
        rw [hstop]
        cases hl : lookupA st.actors k with
        | none => rfl
        | some kd =>
            simp only [Option.map_some']
            have hnm : actorId ∉ kd.children := by
              intro hmem
              obtain ⟨⟨cd, hcd, _⟩, _⟩ := hwf.to_lookup hl hmem
              rw [ha] at hcd
              exact Option.noConfusion hcd
            rw [childFilter_id hnm]
      · rw [hstop]
      · rw [hstop]
        exact hwf
  | some a =>
      have hrkbound : rank actorId < fuel + 1 := hfuel a ha
      have hchild : ∀ c ∈ a.children, ((∃ cd, lookupA st.actors c = some cd ∧
          cd.parent_id = some actorId) ∧ rank c < rank actorId) :=
        fun c hc => hwf.to_lookup ha hc
      have hchildne : ∀ c ∈ a.children, c ≠ actorId := by
        intro c hc he
        have h2 := (hchild c hc).2
        rw [he] at h2
        exact lt_irrefl _ h2
      have hchOf : childrenOf st.actors actorId = some a.children := by
        rw [childrenOf, ha]
        rfl
      have hs0proj : ({ st with actors := (updateA st.actors actorId
          (fun x => { x with running := false })) } : SystemState).actors =
          updateA st.actors actorId (fun x => { x with running := false }) := rfl
      have hlook1 : ∀ k, lookupA (updateA st.actors actorId
          (fun x => { x with running := false })) k =
          if k = actorId then some { a with running := false } else lookupA st.actors k := by
        intro k
        rw [lookupA_updateA]
        by_cases hk : k = actorId
        · rw [if_pos hk, if_pos hk, ha]
          rfl
        · rw [if_neg hk, if_neg hk]
      have hch1 : ∀ q, childrenOf (updateA st.actors actorId
          (fun x => { x with running := false })) q = childrenOf st.actors q :=
        childrenOf_updateA_preserve (fun d => rfl)
      have hwf1 : WF (updateA st.actors actorId (fun x => { x with running := false })) rank :=
        WF_updateA_preserve hwf (fun d => ⟨rfl, rfl⟩)
      have hparx : ∀ c ∈ a.children, ∀ cd,
          lookupA ({ st with actors := (updateA st.actors actorId
            (fun x => { x with running := false })) } : SystemState).actors c = some cd →
          cd.parent_id = some actorId ∧ rank c < fuel := by
        intro c hc cd hcd
        rw [hs0proj, hlook1 c, if_neg (hchildne c hc)] at hcd
        obtain ⟨⟨cd0, hcd0, hcp0⟩, hrk0⟩ := hchild c hc
        rw [hcd0] at hcd
        have hcde := Option.some.inj hcd
        subst hcde
        exact ⟨hcp0, lt_of_lt_of_le hrk0 (Nat.lt_succ_iff.mp hrkbound)⟩
      have hpidx : ∀ c ∈ a.children, actorId ≠ c ∧
          ¬ Desc ({ st with actors := (updateA st.actors actorId
            (fun x => { x with running := false })) } : SystemState).actors c actorId := by
        intro c hc
        refine ⟨fun he => hchildne c hc he.symm, ?_⟩
        intro hd
        have hd0 : Desc st.actors c actorId := descC_congr hch1 hd
        have h1 := desc_rank hwf hd0
        have h2 := (hchild c hc).2
        exact absurd h1 (Nat.lt_asymm h2)
      obtain ⟨hrem2, hsurv2, hpid2, hsub2, hwf2⟩ :=
        hfold a.children
          { st with actors := updateA st.actors actorId (fun x => { x with running := false }) }
          rank actorId hwf1 hparx hpidx
      rw [hs0proj] at hrem2 hsurv2 hpid2 hsub2
      -- membership in the removed set transfers between st and the running-flag state
      have hremfromdesc : ∀ k, Desc st.actors actorId k → ∃ c ∈ a.children, k = c ∨
          Desc (updateA st.actors actorId (fun x => { x with running := false })) c k := by
        intro k hd
        obtain ⟨cs, hcs, c, hc, hck⟩ := descC_first_inv hd
        rw [hchOf] at hcs
        have hcse := Option.some.inj hcs
        subst hcse
        refine ⟨c, hc, ?_⟩
        rcases hck with he | hdk
        · exact Or.inl he
        · exact Or.inr (descC_congr (fun q => (hch1 q).symm) hdk)
      have hnotrem : ∀ k, ¬ Desc st.actors actorId k → ¬ ∃ c ∈ a.children, k = c ∨
          Desc (updateA st.actors actorId (fun x => { x with running := false })) c k := by
        intro k hknd
        rintro ⟨c, hc, he | hdk⟩
        · exact hknd (by rw [he]; exact DescC.child hchOf hc)
        · exact hknd (DescC.tail hchOf hc (descC_congr (fun q => hch1 q) hdk))
      cases hap : a.parent_id with
      | some p =>
          have hB : ∀ k, k = actorId ∨ Desc st.actors actorId k →
              lookupA (stopOne (fuel + 1) st actorId).actors k = none := by
            intro k hk
            simp only [stopOne, ha, hap]
            by_cases hkid : k = actorId
            · subst hkid
              apply lookupA_eraseA_self
              rw [map_fst_updateA]
              exact hwf2.nodupKeys
            · rw [lookupA_eraseA_ne _ _ _ hkid, lookupA_updateA]
              rcases hk with he | hd
              · exact absurd he hkid
              · have hkrem := hremfromdesc k hd
                by_cases hkp : k = p
                · subst hkp
                  rw [if_pos rfl, hrem2 k hkrem]
                  rfl
                · rw [if_neg hkp]
                  exact hrem2 k hkrem
          have hC : ∀ k, k ≠ actorId → ¬ Desc st.actors actorId k →
              lookupA (stopOne (fuel + 1) st actorId).actors k =
                (lookupA st.actors k).map (childFilter actorId) := by
            intro k hkne hknd
            simp only [stopOne, ha, hap]
            rw [lookupA_eraseA_ne _ _ _ hkne, lookupA_updateA]
            have hsurvk := hsurv2 k hkne (hnotrem k hknd)
            by_cases hkp : k = p
            · subst hkp
              rw [if_pos rfl, hsurvk, hlook1, if_neg hkne]
              rfl
            · rw [if_neg hkp, hsurvk, hlook1, if_neg hkne]
              cases hl : lookupA st.actors k with
              | none => rfl
              | some kd =>
                  simp only [Option.map_some']
                  have hnm : actorId ∉ kd.children := by
                    intro hmem
                    obtain ⟨⟨cd, hcd, hcp⟩, _⟩ := hwf.to_lookup hl hmem
                    rw [ha] at hcd
                    have hcde := Option.some.inj hcd
                    subst hcde
                    rw [hap] at hcp
                    exact hkp (Option.some.inj hcp).symm
                  rw [childFilter_id hnm]
          have hD : ((stopOne (fuel + 1) st actorId).actors.map Prod.fst).Sublist
              (st.actors.map Prod.fst) := by
            simp only [stopOne, ha, hap]
            refine List.Sublist.trans (map_fst_eraseA_sublist _ _) ?_
            rw [map_fst_updateA]
            refine List.Sublist.trans hsub2 ?_
            rw [map_fst_updateA]
          refine ⟨?_, hB, hC, hD, WF_of_char hwf hB hC (List.Nodup.sublist hD hwf.nodupKeys)⟩
          intro h
          exact Option.noConfusion h
      | none =>
          have hB : ∀ k, k = actorId ∨ Desc st.actors actorId k →
              lookupA (stopOne (fuel + 1) st actorId).actors k = none := by
            intro k hk
            simp only [stopOne, ha, hap]
            by_cases hkid : k = actorId
            · subst hkid
              exact lookupA_eraseA_self _ _ hwf2.nodupKeys
            · rw [lookupA_eraseA_ne _ _ _ hkid]
              rcases hk with he | hd
              · exact absurd he hkid
              · exact hrem2 k (hremfromdesc k hd)
          have hC : ∀ k, k ≠ actorId → ¬ Desc st.actors actorId k →
              lookupA (stopOne (fuel + 1) st actorId).actors k =
                (lookupA st.actors k).map (childFilter actorId) := by
            intro k hkne hknd
            simp only [stopOne, ha, hap]
            rw [lookupA_eraseA_ne _ _ _ hkne, hsurv2 k hkne (hnotrem k hknd),
              hlook1, if_neg hkne]
            cases hl : lookupA st.actors k with
            | none => rfl
            | some kd =>
                simp only [Option.map_some']
                have hnm : actorId ∉ kd.children := by
                  intro hmem
                  obtain ⟨⟨cd, hcd, hcp⟩, _⟩ := hwf.to_lookup hl hmem
                  rw [ha] at hcd
                  have hcde := Option.some.inj hcd
                  subst hcde
                  rw [hap] at hcp
                  exact Option.noConfusion hcp
                rw [childFilter_id hnm]
          have hD : ((stopOne (fuel + 1) st actorId).actors.map Prod.fst).Sublist
              (st.actors.map Prod.fst) := by
            simp only [stopOne, ha, hap]
            refine List.Sublist.trans (map_fst_eraseA_sublist _ _) ?_
            refine List.Sublist.trans hsub2 ?_
            rw [map_fst_updateA]
          refine ⟨?_, hB, hC, hD, WF_of_char hwf hB hC (List.Nodup.sublist hD hwf.nodupKeys)⟩
          intro h
          exact Option.noConfusion h

theorem stopCharP_all : ∀ fuel, StopCharP fuel := by
  intro fuel
  induction fuel with
  | zero => exact stopCharP_zero
  | succ n ih => exact stopCharP_succ n ih

/-- C5: on a well-formed supervision forest, `stop(identity)` stops the
actor and, recursively, every transitively recorded child: the identity and
all its N transitive children become absent from the registry (all N+1
entries removed); every other registered actor survives unchanged except
that the stopped identity is filtered out of its parent's child set (hence
no surviving actor records the stopped identity as a child); and stopping
an identity not present in the registry is a complete no-op on the whole
system state. -/
theorem stop_spec (st : SystemState) (rank : String → Nat) (actorId : String)
    (hwf : WF st.actors rank)
    (hbound : ∀ e ∈ st.actors, rank e.1 < st.actors.length + 1) :
    (lookupA st.actors actorId = none → stop st actorId = st) ∧
    (∀ k, k = actorId ∨ Desc st.actors actorId k →
       lookupA (stop st actorId).actors k = none) ∧
    (∀ k, k ≠ actorId → ¬ Desc st.actors actorId k →
       lookupA (stop st actorId).actors k =
         (lookupA st.actors k).map (childFilter actorId)) ∧
    (∀ p pd, lookupA (stop st actorId).actors p = some pd → actorId ∉ pd.children) := by
  have h := stopCharP_all (st.actors.length + 1) st rank actorId hwf
    (fun a ha => hbound (actorId, a) (mem_of_lookupA ha))
  refine ⟨h.1, h.2.1, h.2.2.1, ?_⟩
  intro p pd hp hmem
  unfold stop at hp
  by_cases hpr : p = actorId ∨ Desc st.actors actorId p
  · rw [h.2.1 p hpr] at hp
    exact Option.noConfusion hp
  · have hpr2 := not_or.mp hpr
    rw [h.2.2.1 p hpr2.1 hpr2.2] at hp
    cases hl : lookupA st.actors p with
    | none => rw [hl] at hp; exact Option.noConfusion hp
    | some pd0 =>
        rw [hl] at hp
        have he := Option.some.inj hp
        rw [← he] at hmem
        simp only [childFilter, removeChild] at hmem
        have h2 := (List.mem_filter.mp hmem).2
        simp at h2

/-- Supervision forest for the C5 witness: `root` supervises `k1` and `k2`,
`k1` supervises `g`, and `other` is unrelated. -/
def stC5 : SystemState :=
  { actors := [("root", { children := ["k1", "k2"], running := true }),
               ("k1", { parent_id := some "root", children := ["g"], running := true }),
               ("k2", { parent_id := some "root", running := true }),
               ("g", { parent_id := some "k1", running := true }),
               ("other", { running := true })] }

/-- Rank measure witnessing that `stC5` is a forest. -/
def rankC5 : String → Nat :=
  fun s => if s = "root" then 3 else if s = "k1" then 2 else if s = "k2" then 1 else 0

/-- Closed witness for `stop_spec`: stopping `k1` removes `k1` and its
child `g`, removes `k1` from `root`'s child set while leaving the rest of
`root`'s entry and the unrelated `k2` untouched, and stopping the unknown
identity `ghost` is a no-op. -/
theorem stop_spec_witness :
    lookupA (stop stC5 "k1").actors "k1" = none ∧
    lookupA (stop stC5 "k1").actors "g" = none ∧
    lookupA (stop stC5 "k1").actors "root" =
      some { children := ["k2"], running := true } ∧
    lookupA (stop stC5 "k1").actors "k2" =
      some { parent_id := some "root", running := true } ∧
    stop stC5 "ghost" = stC5 := by
  have hwf : WF stC5.actors rankC5 := by decide
  have hbound : ∀ e ∈ stC5.actors, rankC5 e.1 < stC5.actors.length + 1 := by decide
  obtain ⟨hnoop, hrem, hsurv, hpar⟩ := stop_spec stC5 rankC5 "k1" hwf hbound
  obtain ⟨hnoop2, h2a, h2b, h2c⟩ := stop_spec stC5 rankC5 "ghost" hwf hbound
  have hdesc : Desc stC5.actors "k1" "g" :=
    @DescC.child (childrenOf stC5.actors) "k1" "g" ["g"] (by decide) (by decide)
  have hnd1 : ¬ Desc stC5.actors "k1" "root" := by
    intro hd
    exact absurd (desc_rank hwf hd) (by decide)
  have hnd2 : ¬ Desc stC5.actors "k1" "k2" := by
    intro hd
    obtain ⟨cs, hcs, c, hc, hck⟩ := descC_first_inv hd
    have hg : childrenOf stC5.actors "k1" = some ["g"] := by decide
    rw [hg] at hcs
    have hcse := Option.some.inj hcs
    subst hcse
    have hcg : c = "g" := List.mem_singleton.mp hc
    subst hcg
    rcases hck with he | hdg
    · exact absurd he (by decide)
    · obtain ⟨cs2, hcs2, c2, hc2, _⟩ := descC_first_inv hdg
      have hge : childrenOf stC5.actors "g" = some [] := by decide
      rw [hge] at hcs2
      have hcse2 := Option.some.inj hcs2
      subst hcse2
      exact absurd hc2 (List.not_mem_nil c2)
  refine ⟨hrem "k1" (Or.inl rfl), hrem "g" (Or.inr hdesc), ?_, ?_, hnoop2 (by decide)⟩
  · rw [hsurv "root" (by decide) hnd1]
    decide
  · rw [hsurv "k2" (by decide) hnd2]
    decide

end Agents
